import Mathlib

set_option maxHeartbeats 1000000

/-!
Verification of the Host Command Bridge of this repository: a shallow
embedding of the relay server (src/server/relay.js) and of the client-side
request correlator (connectRelay / executeTerminalCommand in the live hook),
together with theorems settling the protocol claims.

JavaScript string operations are modelled at the character-list level so
that every definition is executable and every concrete instance can be
settled by `decide`.
-/

namespace Bridge

/-! ### JavaScript-style string primitives, modelled over character lists -/

/-- ASCII whitespace recognizer used by the model of `String.prototype.trim`. -/
def isWsChar (c : Char) : Bool :=
  c == ' ' || c == '\t' || c == '\n' || c == '\r'

def trimChars (l : List Char) : List Char :=
  ((l.dropWhile isWsChar).reverse.dropWhile isWsChar).reverse

/-- Model of JavaScript `s.trim()`. -/
def strTrim (s : String) : String := ⟨trimChars s.data⟩

/-- Model of JavaScript `s.substring(n)` for ASCII content. -/
def dropChars (s : String) (n : Nat) : String := ⟨s.data.drop n⟩

def isPrefixChars : List Char → List Char → Bool
  | [], _ => true
  | _ :: _, [] => false
  | a :: as, b :: bs => a == b && isPrefixChars as bs

/-- Model of JavaScript `s.startsWith(p)`. -/
def strStarts (s p : String) : Bool := isPrefixChars p.data s.data

def replaceFirstChar : List Char → Char → List Char → List Char
  | [], _, _ => []
  | c :: rest, pat, rep =>
    if c == pat then rep ++ rest else c :: replaceFirstChar rest pat rep

/-- Model of JavaScript `s.replace(p, home)` for the single-character pattern
used by the cd handler: only the first occurrence is replaced. -/
def jsReplaceTilde (s home : String) : String :=
  ⟨replaceFirstChar s.data '~' home.data⟩

/-! ### POSIX path model (`path.resolve`, `path.dirname`) -/

def splitSeg : List Char → List Char → List (List Char)
  | [], acc => [acc.reverse]
  | c :: rest, acc =>
    if c == '/' then acc.reverse :: splitSeg rest [] else splitSeg rest (c :: acc)

/-- Split a path into its nonempty segments. -/
def splitPath (s : String) : List String :=
  ((splitSeg s.data []).filter (fun l => l ≠ [])).map (fun l => ⟨l⟩)

/-- Normalize `.` and `..` segments the way `path.resolve` does. -/
def normSegs (segs : List String) : List String :=
  segs.foldl (fun acc seg =>
    if seg = "." then acc else if seg = ".." then acc.dropLast else acc ++ [seg]) []

def joinSegs : List String → String
  | [] => "/"
  | segs => segs.foldl (fun acc s => acc ++ "/" ++ s) ""

/-- Model of Node `path.resolve(base, p)` with an absolute base. -/
def pathResolve (base p : String) : String :=
  if strStarts p "/" then joinSegs (normSegs (splitPath p))
  else joinSegs (normSegs (splitPath base ++ splitPath p))

/-- Model of Node `path.dirname` on an already-resolved path. -/
def pathDirname (p : String) : String := joinSegs ((splitPath p).dropLast)

/-! ### File-system model -/

inductive FsEntry
  | file (content : String)
  | dir
deriving DecidableEq

abbrev FS := List (String × FsEntry)

def fsLookup : FS → String → Option FsEntry
  | [], _ => none
  | (k, e) :: rest, p => if k = p then some e else fsLookup rest p

def fsInsert (fs : FS) (p : String) (e : FsEntry) : FS := (p, e) :: fs

/-- All ancestor paths of `p`, including `p` itself, shortest first. -/
def ancestors (p : String) : List String :=
  (List.range (splitPath p).length).map (fun i => joinSegs ((splitPath p).take (i + 1)))

def isFileEntry : Option FsEntry → Bool
  | some (FsEntry.file _) => true
  | _ => false

/-- Model of `fs.mkdir(p, recursive)`: fails when some entry on the
ancestor chain is a regular file, otherwise creates every missing ancestor
directory. -/
def mkdirRec (fs : FS) (p : String) : Except String FS :=
  if (ancestors p).any (fun a => isFileEntry (fsLookup fs a)) then
    Except.error ("ENOTDIR: not a directory, mkdir " ++ p)
  else
    Except.ok ((ancestors p).foldl
      (fun f a => if (fsLookup f a).isSome then f else fsInsert f a FsEntry.dir) fs)

/-- Model of `fs.writeFile`: fails when the target is an existing directory. -/
def writeFileFS (fs : FS) (p c : String) : Except String FS :=
  match fsLookup fs p with
  | some FsEntry.dir => Except.error ("EISDIR: illegal operation on a directory, open " ++ p)
  | _ => Except.ok (fsInsert fs p (FsEntry.file c))

/-- Model of `fs.readFile`. -/
def readFileFS (fs : FS) (p : String) : Except String String :=
  match fsLookup fs p with
  | some (FsEntry.file c) => Except.ok c
  | some FsEntry.dir => Except.error ("EISDIR: illegal operation on a directory, read " ++ p)
  | none => Except.error ("ENOENT: no such file or directory, open " ++ p)

/-! ### Wire messages and server state (src/server/relay.js) -/

/-- The telemetry snapshot assembled by `getSystemTelemetry`. -/
structure Telemetry where
  version : String
  platform : String
  hostname : String
  arch : String
  isAdmin : Bool
deriving DecidableEq

/-- A decoded JSON frame: the union of the fields the dispatcher reads.
Absent JSON fields are `none`. -/
structure WireMsg where
  type : String
  content : Option String := none
  requestId : Option String := none
  token : Option String := none
  path : Option String := none
  filename : Option String := none
  target : Option String := none
  code : Option Int := none
  telemetry : Option Telemetry := none
deriving DecidableEq

/-- The CONFIG record of the relay: the shared token (already collapsed to `none`
when the env variable is unset or empty, as `|| null` does), the platform
flag and the home directory. -/
structure SrvConfig where
  token : Option String
  isWin : Bool
  homedir : String
deriving DecidableEq

/-- The per-connection server state: the `authorized` flag of the
connection handler plus the module-global `currentDir` and the host
file system. -/
structure SrvState where
  authorized : Bool
  currentDir : String
  fs : FS
deriving DecidableEq

/-- Host-side effects other than sending frames. The `spawn` effect records
the request id its stream handlers are closed over. -/
inductive Effect
  | spawn (shell : String) (args : List String) (cwd : String) (rid : Option String)
  | openTarget (cmd : String)
  | closeSocket
deriving DecidableEq

structure StepResult where
  state : SrvState
  sent : List WireMsg
  effects : List Effect
deriving DecidableEq

def statusMsg (t : String) (rid : Option String) : WireMsg :=
  { type := t, requestId := rid }

def cwdMsg (d : String) (rid : Option String) : WireMsg :=
  { type := "cwd", content := some d, requestId := rid }

def errMsg (c : String) (rid : Option String) : WireMsg :=
  { type := "error", content := some c, requestId := rid }

def configMsg (telem : Telemetry) (rid : Option String) : WireMsg :=
  { type := "config", telemetry := some telem, requestId := rid }

def outputMsg (c : String) (rid : Option String) : WireMsg :=
  { type := "output", content := some c, requestId := rid }

def exitMsg (c : Int) (rid : Option String) : WireMsg :=
  { type := "exit", code := some c, requestId := rid }

def fileContentMsg (c : String) (rid : Option String) : WireMsg :=
  { type := "file_content", content := some c, requestId := rid }

def systemMsg (c : String) (rid : Option String) : WireMsg :=
  { type := "system", content := some c, requestId := rid }

def shellName (cfg : SrvConfig) : String :=
  if cfg.isWin then "powershell.exe" else "bash"

def shellArgs (cfg : SrvConfig) (input : String) : List String :=
  if cfg.isWin then ["-NoProfile", "-Command", input] else ["-c", input]

/-- The auth comparison: token unset, or the presented token equal to the
configured one. -/
def authOk (cfg : SrvConfig) (tok : Option String) : Bool :=
  cfg.token.isNone || tok == cfg.token

/-- The builtin `cd` branch of the command handler. `currentDir` is
assigned before `process.chdir` runs; when the target is a regular file the
`chdir` raises ENOTDIR, the outer try/catch swallows it and no frame is
sent, but the assignment to `currentDir` has already happened. -/
def handleCd (st : SrvState) (homedir input : String) (rid : Option String) : StepResult :=
  let target := pathResolve st.currentDir (jsReplaceTilde (strTrim (dropChars input 3)) homedir)
  match fsLookup st.fs target with
  | some FsEntry.dir =>
    { state := { st with currentDir := target }, sent := [cwdMsg target rid], effects := [] }
  | some (FsEntry.file _) =>
    { state := { st with currentDir := target }, sent := [], effects := [] }
  | none =>
    { state := st, sent := [errMsg ("Directory not found: " ++ target) rid], effects := [] }

/-- The per-message dispatcher of the relay (the message event handler). Messages whose
mandatory field is absent raise inside the handler and are swallowed by the
try/catch, so they are modelled as no-ops. -/
def handleMessage (cfg : SrvConfig) (telem : Telemetry) (st : SrvState) (msg : WireMsg) :
    StepResult :=
  let rid := msg.requestId
  if msg.type = "auth" then
    if authOk cfg msg.token then
      { state := { st with authorized := true },
        sent := [statusMsg "auth_success" rid, configMsg telem rid, cwdMsg st.currentDir rid],
        effects := [] }
    else
      { state := st, sent := [statusMsg "auth_fail" rid], effects := [Effect.closeSocket] }
  else if st.authorized = false then
    { state := st, sent := [], effects := [] }
  else if msg.type = "command" then
    match msg.content with
    | none => { state := st, sent := [], effects := [] }
    | some raw =>
      let input := strTrim raw
      if strStarts input "cd " then handleCd st cfg.homedir input rid
      else
        { state := st, sent := [],
          effects := [Effect.spawn (shellName cfg) (shellArgs cfg input) st.currentDir rid] }
  else if msg.type = "read" then
    match msg.path with
    | none => { state := st, sent := [], effects := [] }
    | some p =>
      match readFileFS st.fs (pathResolve st.currentDir p) with
      | Except.ok data => { state := st, sent := [fileContentMsg data rid], effects := [] }
      | Except.error e => { state := st, sent := [errMsg e rid], effects := [] }
  else if msg.type = "write" then
    match msg.filename, msg.content with
    | some f, some c =>
      let wPath := pathResolve st.currentDir f
      (match mkdirRec st.fs (pathDirname wPath) with
       | Except.error e => { state := st, sent := [errMsg e rid], effects := [] }
       | Except.ok fs1 =>
         match writeFileFS fs1 wPath c with
         | Except.error e => { state := st, sent := [errMsg e rid], effects := [] }
         | Except.ok fs2 =>
           { state := { st with fs := fs2 },
             sent := [systemMsg "Write operation successful." rid], effects := [] })
    | _, _ => { state := st, sent := [], effects := [] }
  else if msg.type = "open" then
    { state := st, sent := [], effects := [Effect.openTarget (msg.target.getD "undefined")] }
  else
    { state := st, sent := [], effects := [] }

/-- The connection-open handler of the relay: the connection starts authorized
exactly when no token is configured, in which case `auth_success` and then
the telemetry/cwd push are sent immediately. -/
def connInit (cfg : SrvConfig) (currentDir : String) (fs : FS) (telem : Telemetry) :
    SrvState × List WireMsg :=
  let authorized := cfg.token.isNone
  ({ authorized := authorized, currentDir := currentDir, fs := fs },
   if authorized then
     [statusMsg "auth_success" none, configMsg telem none, cwdMsg currentDir none]
   else [])

/-! ### Spawned process stream events -/

inductive ProcEvent
  | stdoutChunk (s : String)
  | stderrChunk (s : String)
  | closed (c : Int)
deriving DecidableEq

/-- The stream handlers installed by the command branch: stdout chunks
become `output` frames, stderr chunks become `error` frames, and close
becomes the `exit` frame, all tagged with the originating request id. -/
def procEventMsg (rid : Option String) : ProcEvent → WireMsg
  | ProcEvent.stdoutChunk s => outputMsg s rid
  | ProcEvent.stderrChunk s => errMsg s rid
  | ProcEvent.closed c => exitMsg c rid

def isClosedEvent : ProcEvent → Bool
  | ProcEvent.closed _ => true
  | _ => false

/-! ### Relay startup and port discovery -/

inductive PortOutcome
  | free
  | addrInUse
  | otherError
deriving DecidableEq

inductive RelayResult
  | bound (port : Nat)
  | exitedFatal
  | stuck (port : Nat)
deriving DecidableEq

/-- Model of startRelay: past the end of the candidate list the process exits
fatally; EADDRINUSE advances to the next candidate; any other listen error
is only logged (the server neither binds nor retries). -/
def startRelay (outcome : Nat → PortOutcome) : List Nat → RelayResult
  | [] => RelayResult.exitedFatal
  | p :: rest =>
    match outcome p with
    | PortOutcome.free => RelayResult.bound p
    | PortOutcome.addrInUse => startRelay outcome rest
    | PortOutcome.otherError => RelayResult.stuck p

def CONFIG_PORTS : List Nat := [8080, 8081, 8082, 8083]

/-! ### Client-side request correlator (connectRelay / executeTerminalCommand) -/

/-- Client state: the `isRelayAuthorized` flag, the keys of
`pendingToolCalls` and the `toolCallBuffers` map. -/
structure ClientState where
  authorizedFlag : Bool
  pending : List String
  buffers : List (String × String)
deriving DecidableEq

def alistLookup : List (String × String) → String → Option String
  | [], _ => none
  | (k, v) :: rest, r => if k = r then some v else alistLookup rest r

def alistErase (l : List (String × String)) (k : String) : List (String × String) :=
  l.filter (fun kv => kv.1 != k)

def alistSet (l : List (String × String)) (k v : String) : List (String × String) :=
  (k, v) :: alistErase l k

def pendingAdd (l : List String) (k : String) : List String :=
  if k ∈ l then l else k :: l

/-- JavaScript truthiness of a requestId: present and nonempty. -/
def ridTruthy : Option String → Bool
  | some s => s != ""
  | none => false

def isTerminalType (t : String) : Bool :=
  t == "exit" || t == "system" || t == "file_content"

def isChunkType (t : String) : Bool :=
  t == "output" || t == "error" || t == "file_content"

/-- JavaScript `a || b` on strings. -/
def jsOrStr (a b : String) : String := if a = "" then b else a

/-- JavaScript `a || b` where `a` may be absent. -/
def jsOrOpt (a : Option String) (b : String) : String :=
  match a with
  | some s => if s = "" then b else s
  | none => b

/-- One client step: the updated state, the resolver firing (request id and
the value it receives — `none` models `resolver(undefined)`), and the
frames the client sends in response. -/
structure ClientStep where
  state : ClientState
  fired : Option (String × Option String)
  sent : List WireMsg
deriving DecidableEq

/-- The onmessage handler of connectRelay. UI-only state
(terminal log entries, the displayed cwd and config) is omitted. -/
def clientHandle (st : ClientState) (data : WireMsg) : ClientStep :=
  let key := data.requestId.getD ""
  let st1 :=
    if data.type = "auth_success" then { st with authorizedFlag := true }
    else if data.type = "auth_fail" then { st with authorizedFlag := false }
    else if ridTruthy data.requestId = true ∧ isChunkType data.type = true then
      { st with buffers :=
          alistSet st.buffers key ((alistLookup st.buffers key).getD "" ++ data.content.getD "") }
    else st
  let sent1 :=
    if data.type = "auth_success" then [({ type := "get_config" } : WireMsg)] else []
  if ridTruthy data.requestId = true ∧ isTerminalType data.type = true then
    if key ∈ st1.pending then
      let buffered := (alistLookup st1.buffers key).getD ""
      let value : Option String :=
        if data.type = "file_content" then data.content
        else some (jsOrStr buffered (jsOrOpt data.content "Action Complete."))
      { state := { st1 with pending := st1.pending.filter (fun x => x != key),
                            buffers := alistErase st1.buffers key },
        fired := some (key, value), sent := sent1 }
    else { state := st1, fired := none, sent := sent1 }
  else { state := st1, fired := none, sent := sent1 }

/-- Model of executeTerminalCommand: refuses when the bridge is locked, otherwise
stores a resolver under a request id and sends the tagged command frame. -/
def executeTerminalCommand (st : ClientState) (cmd : String) (id : String) :
    ClientState × Option WireMsg :=
  if st.authorizedFlag = false then (st, none)
  else ({ st with pending := pendingAdd st.pending id },
        some { type := "command", content := some cmd, requestId := some id })

/-- Process a list of inbound frames, collecting every resolver firing. -/
def processTrace (st : ClientState) : List WireMsg → ClientState × List (String × Option String)
  | [] => (st, [])
  | m :: rest =>
    let step := clientHandle st m
    let next := processTrace step.state rest
    (next.1, step.fired.toList ++ next.2)

def isTermFor (r : String) (m : WireMsg) : Bool :=
  m.requestId == some r && isTerminalType m.type

def isChunkFor (r : String) (m : WireMsg) : Bool :=
  m.requestId == some r && isChunkType m.type

def concatAll : List String → String
  | [] => ""
  | s :: rest => s ++ concatAll rest

/-- Ordered concatenation of the contents of the non-terminal chunks a
trace carries for request id `r`. -/
def chunkConcat (r : String) (trace : List WireMsg) : String :=
  concatAll ((trace.filter (isChunkFor r)).map (fun m => m.content.getD ""))

/-- The accumulated buffer the client holds for id `r` (empty when absent). -/
def bufVal (st : ClientState) (r : String) : String :=
  (alistLookup st.buffers r).getD ""

/-! ### Sample concrete values used by witnesses -/

def telem0 : Telemetry :=
  { version := "4.0.0", platform := "linux", hostname := "host", arch := "x64", isAdmin := false }

def cfg0 : SrvConfig := { token := none, isWin := false, homedir := "/root" }

def cfgTok : SrvConfig := { token := some "secret", isWin := false, homedir := "/root" }

/-! ### Helper lemmas: association lists and pending sets -/

lemma alistLookup_erase_self (l : List (String × String)) (k : String) :
    alistLookup (alistErase l k) k = none := by
  induction l with
  | nil => rfl
  | cons kv rest ih =>
    by_cases h : kv.1 = k
    · simpa [alistErase, List.filter_cons, h] using ih
    · simpa [alistErase, List.filter_cons, h, alistLookup] using ih

lemma alistLookup_erase_ne (l : List (String × String)) (k r : String) (h : k ≠ r) :
    alistLookup (alistErase l k) r = alistLookup l r := by
  induction l with
  | nil => rfl
  | cons kv rest ih =>
    by_cases hk : kv.1 = k
    · have : kv.1 ≠ r := by rw [hk]; exact h
      simp [alistErase, List.filter_cons, hk, alistLookup, this, h] at ih ⊢
      exact ih
    · simp [alistErase, List.filter_cons, hk, alistLookup] at ih ⊢
      by_cases hr : kv.1 = r
      · simp [hr]
      · simp [hr]; exact ih

lemma alistLookup_set_self (l : List (String × String)) (k v : String) :
    alistLookup (alistSet l k v) k = some v := by
  simp [alistSet, alistLookup]

lemma alistLookup_set_ne (l : List (String × String)) (k v r : String) (h : k ≠ r) :
    alistLookup (alistSet l k v) r = alistLookup l r := by
  simp [alistSet, alistLookup, h]
  exact alistLookup_erase_ne l k r h

lemma mem_filter_ne_self (l : List String) (k : String) :
    k ∉ l.filter (fun x => x != k) := by
  intro h
  have := (List.mem_filter.mp h).2
  simp at this

lemma mem_filter_ne_of_ne (l : List String) (k r : String) (h : k ≠ r) :
    (r ∈ l.filter (fun x => x != k)) ↔ r ∈ l := by
  constructor
  · intro hm; exact (List.mem_filter.mp hm).1
  · intro hm
    exact List.mem_filter.mpr ⟨hm, by simp [bne_iff_ne]; exact fun e => h e.symm⟩

lemma mem_pendingAdd_self (l : List String) (k : String) : k ∈ pendingAdd l k := by
  by_cases h : k ∈ l <;> simp [pendingAdd, h]

/-! ### Helper lemmas: single client steps -/

/-- A message not tagged with `r` leaves the buffer and pending entry for
`r` alone and cannot fire the resolver of `r`. -/
lemma clientHandle_frame (st : ClientState) (m : WireMsg) (r : String)
    (h : m.requestId ≠ some r) :
    bufVal (clientHandle st m).state r = bufVal st r
    ∧ ((r ∈ (clientHandle st m).state.pending) ↔ r ∈ st.pending)
    ∧ (∀ v, (clientHandle st m).fired ≠ some (r, v)) := by
  have hkey : ridTruthy m.requestId = true → ¬ (m.requestId.getD "" = r) := by
    cases hm : m.requestId with
    | none => intro ht; simp [ridTruthy] at ht
    | some s =>
      intro _ he
      simp only [Option.getD_some] at he
      exact h (by rw [hm, he])
  simp only [clientHandle]
  split_ifs with c1 c2 c3 c4 c5 c6 c7 c8 c9 <;>
    simp_all [bufVal, alistLookup_set_ne, alistLookup_erase_ne, mem_filter_ne_of_ne] <;>
    exact fun _ e => hkey e.symm

/-- A streamed `output`/`error` chunk tagged with `r` appends its content
to the buffer of `r` and fires nothing. -/
lemma clientHandle_chunk (st : ClientState) (m : WireMsg) (r : String)
    (hrid : m.requestId = some r) (hr : r ≠ "")
    (hchunk : isChunkType m.type = true) (hterm : isTerminalType m.type = false) :
    bufVal (clientHandle st m).state r = bufVal st r ++ m.content.getD ""
    ∧ (clientHandle st m).state.pending = st.pending
    ∧ (clientHandle st m).fired = none := by
  have htypes : m.type = "output" ∨ m.type = "error" := by
    simp [isChunkType] at hchunk
    simp [isTerminalType] at hterm
    rcases hchunk with (h1 | h1) | h1
    · exact Or.inl h1
    · exact Or.inr h1
    · tauto
  have hna : m.type ≠ "auth_success" := by rcases htypes with h1 | h1 <;> simp [h1]
  have hnf : m.type ≠ "auth_fail" := by rcases htypes with h1 | h1 <;> simp [h1]
  simp [clientHandle, hna, hnf, ridTruthy, hr, hchunk, hterm, hrid, bufVal,
    alistLookup_set_self]

/-- A message tagged with `r` whose type is neither a chunk nor a terminal
kind leaves the entries of `r` alone and fires nothing. -/
lemma clientHandle_inert (st : ClientState) (m : WireMsg) (r : String)
    (hrid : m.requestId = some r)
    (hchunk : isChunkType m.type = false) (hterm : isTerminalType m.type = false) :
    bufVal (clientHandle st m).state r = bufVal st r
    ∧ (clientHandle st m).state.pending = st.pending
    ∧ (clientHandle st m).fired = none := by
  simp only [clientHandle, hrid]
  split_ifs <;> simp_all [bufVal]

/-- A terminal message tagged with a pending `r` fires the resolver of `r`
exactly as the handler computes the value, then discards the pending entry
and the buffer. -/
lemma clientHandle_terminal (st : ClientState) (m : WireMsg) (r : String)
    (hrid : m.requestId = some r) (hr : r ≠ "")
    (hterm : isTerminalType m.type = true) (hp : r ∈ st.pending) :
    (clientHandle st m).fired =
      some (r, if m.type = "file_content" then m.content
               else some (jsOrStr (bufVal st r) (jsOrOpt m.content "Action Complete.")))
    ∧ (r ∉ (clientHandle st m).state.pending)
    ∧ alistLookup (clientHandle st m).state.buffers r = none := by
  have htypes : m.type = "exit" ∨ m.type = "system" ∨ m.type = "file_content" := by
    simpa [isTerminalType, or_assoc] using hterm
  have hna : m.type ≠ "auth_success" := by rcases htypes with h1 | h1 | h1 <;> simp [h1]
  have hnf : m.type ≠ "auth_fail" := by rcases htypes with h1 | h1 | h1 <;> simp [h1]
  rcases htypes with h1 | h1 | h1 <;>
    simp [clientHandle, hna, hnf, ridTruthy, hr, hterm, hrid, h1, isChunkType,
      isTerminalType, hp, bufVal, alistLookup_set_self, alistLookup_erase_self,
      mem_filter_ne_self]

/-- A message of non-terminal type never fires any resolver and leaves the
pending set unchanged. -/
lemma clientHandle_nonterminal (st : ClientState) (m : WireMsg)
    (h : isTerminalType m.type = false) :
    (clientHandle st m).fired = none ∧ (clientHandle st m).state.pending = st.pending := by
  simp only [clientHandle]
  split_ifs <;> simp_all

/-- The pending set never grows under a client step. -/
lemma clientHandle_pending_mono (st : ClientState) (m : WireMsg) (r : String)
    (h : r ∈ (clientHandle st m).state.pending) : r ∈ st.pending := by
  revert h
  simp only [clientHandle]
  split_ifs <;> intro h <;> simp_all

/-- Whatever fires was pending before the step. -/
lemma clientHandle_fired_pending (st : ClientState) (m : WireMsg) (e : String × Option String)
    (hf : (clientHandle st m).fired = some e) : e.1 ∈ st.pending := by
  revert hf
  simp only [clientHandle]
  split_ifs with c1 c2 c3 c4 c5 c6 c7 c8 c9 <;> intro hf <;>
    first
      | exact hf.elim
      | exact Option.noConfusion hf
      | (injection hf with h2; subst h2; simp_all)

/-- No step fires the resolver of an id that is not pending, and such an id
stays out of the pending set. -/
lemma clientHandle_not_pending (st : ClientState) (m : WireMsg) (r : String)
    (h : r ∉ st.pending) :
    (∀ v, (clientHandle st m).fired ≠ some (r, v))
    ∧ r ∉ (clientHandle st m).state.pending := by
  refine ⟨fun v hv => ?_, fun hm => h (clientHandle_pending_mono st m r hm)⟩
  exact h (by simpa using clientHandle_fired_pending st m (r, v) hv)

/-! ### Helper lemmas: traces -/

lemma strAppend_assoc (a b c : String) : a ++ b ++ c = a ++ (b ++ c) :=
  String.ext (by simp [String.data_append])

lemma strAppend_empty (a : String) : a ++ "" = a :=
  String.ext (by simp [String.data_append])

lemma processTrace_append (st : ClientState) (xs ys : List WireMsg) :
    processTrace st (xs ++ ys) =
      ((processTrace (processTrace st xs).1 ys).1,
       (processTrace st xs).2 ++ (processTrace (processTrace st xs).1 ys).2) := by
  induction xs generalizing st with
  | nil => simp [processTrace]
  | cons m rest ih => simp [processTrace, ih]

lemma chunkConcat_nil (r : String) : chunkConcat r [] = "" := rfl

lemma chunkConcat_cons_chunk (r : String) (m : WireMsg) (rest : List WireMsg)
    (h : isChunkFor r m = true) :
    chunkConcat r (m :: rest) = m.content.getD "" ++ chunkConcat r rest := by
  simp [chunkConcat, List.filter_cons, h, concatAll]

lemma chunkConcat_cons_other (r : String) (m : WireMsg) (rest : List WireMsg)
    (h : isChunkFor r m = false) :
    chunkConcat r (m :: rest) = chunkConcat r rest := by
  simp [chunkConcat, List.filter_cons, h]

/-- Over a trace with no terminal message for `r`, the buffer of `r` grows
by exactly the concatenation of the chunks for `r`, the pending entry is
untouched, and the resolver of `r` never fires. -/
lemma processTrace_no_term (r : String) (hr : r ≠ "") (msgs : List WireMsg)
    (h : ∀ m ∈ msgs, isTermFor r m = false) (st : ClientState) :
    bufVal (processTrace st msgs).1 r = bufVal st r ++ chunkConcat r msgs
    ∧ ((r ∈ (processTrace st msgs).1.pending) ↔ r ∈ st.pending)
    ∧ (∀ v, (r, v) ∉ (processTrace st msgs).2) := by
  induction msgs generalizing st with
  | nil => simp [processTrace, chunkConcat_nil, strAppend_empty]
  | cons m rest ih =>
    have hm : isTermFor r m = false := h m (List.mem_cons_self m rest)
    have hrest : ∀ m2 ∈ rest, isTermFor r m2 = false :=
      fun m2 hm2 => h m2 (List.mem_cons_of_mem m hm2)
    by_cases hrid : m.requestId = some r
    · have hnterm : isTerminalType m.type = false := by
        simp [isTermFor, hrid] at hm
        exact hm
      by_cases hchunk : isChunkType m.type = true
      · have hc : isChunkFor r m = true := by simp [isChunkFor, hrid, hchunk]
        obtain ⟨b1, b2, b3⟩ := clientHandle_chunk st m r hrid hr hchunk hnterm
        obtain ⟨i1, i2, i3⟩ := ih hrest (clientHandle st m).state
        refine ⟨?_, ?_, ?_⟩
        · rw [show processTrace st (m :: rest)
              = ((processTrace (clientHandle st m).state rest).1,
                 (clientHandle st m).fired.toList
                   ++ (processTrace (clientHandle st m).state rest).2) from rfl]
          rw [i1, b1, chunkConcat_cons_chunk r m rest hc, strAppend_assoc]
        · rw [show (processTrace st (m :: rest)).1
              = (processTrace (clientHandle st m).state rest).1 from rfl]
          rw [i2, b2]
        · intro v hv
          rw [show (processTrace st (m :: rest)).2
              = (clientHandle st m).fired.toList
                  ++ (processTrace (clientHandle st m).state rest).2 from rfl] at hv
          rcases List.mem_append.mp hv with h1 | h1
          · rw [b3] at h1; simp at h1
          · exact i3 v h1
      · have hchunk2 : isChunkType m.type = false := by
          revert hchunk; cases isChunkType m.type <;> simp
        have hc : isChunkFor r m = false := by simp [isChunkFor, hrid, hchunk2]
        obtain ⟨b1, b2, b3⟩ := clientHandle_inert st m r hrid hchunk2 hnterm
        obtain ⟨i1, i2, i3⟩ := ih hrest (clientHandle st m).state
        refine ⟨?_, ?_, ?_⟩
        · rw [show bufVal (processTrace st (m :: rest)).1 r
              = bufVal (processTrace (clientHandle st m).state rest).1 r from rfl]
          rw [i1, b1, chunkConcat_cons_other r m rest hc]
        · rw [show (processTrace st (m :: rest)).1
              = (processTrace (clientHandle st m).state rest).1 from rfl]
          rw [i2, b2]
        · intro v hv
          rw [show (processTrace st (m :: rest)).2
              = (clientHandle st m).fired.toList
                  ++ (processTrace (clientHandle st m).state rest).2 from rfl] at hv
          rcases List.mem_append.mp hv with h1 | h1
          · rw [b3] at h1; simp at h1
          · exact i3 v h1
    · have hc : isChunkFor r m = false := by simp [isChunkFor, hrid]
      obtain ⟨b1, b2, b3⟩ := clientHandle_frame st m r hrid
      obtain ⟨i1, i2, i3⟩ := ih hrest (clientHandle st m).state
      refine ⟨?_, ?_, ?_⟩
      · rw [show bufVal (processTrace st (m :: rest)).1 r
            = bufVal (processTrace (clientHandle st m).state rest).1 r from rfl]
        rw [i1, b1, chunkConcat_cons_other r m rest hc]
      · rw [show (processTrace st (m :: rest)).1
            = (processTrace (clientHandle st m).state rest).1 from rfl]
        rw [i2, b2]
      · intro v hv
        rw [show (processTrace st (m :: rest)).2
            = (clientHandle st m).fired.toList
                ++ (processTrace (clientHandle st m).state rest).2 from rfl] at hv
        rcases List.mem_append.mp hv with h1 | h1
        · exact b3 v (by simpa using h1)
        · exact i3 v h1

/-- Once `r` is no longer pending it never fires again and never re-enters
the pending set. -/
lemma processTrace_not_pending (r : String) (msgs : List WireMsg) (st : ClientState)
    (h : r ∉ st.pending) :
    (∀ v, (r, v) ∉ (processTrace st msgs).2)
    ∧ r ∉ (processTrace st msgs).1.pending := by
  induction msgs generalizing st with
  | nil => simpa [processTrace] using h
  | cons m rest ih =>
    obtain ⟨s1, s2⟩ := clientHandle_not_pending st m r h
    obtain ⟨i1, i2⟩ := ih (clientHandle st m).state s2
    refine ⟨?_, i2⟩
    intro v hv
    rw [show (processTrace st (m :: rest)).2
        = (clientHandle st m).fired.toList
            ++ (processTrace (clientHandle st m).state rest).2 from rfl] at hv
    rcases List.mem_append.mp hv with h1 | h1
    · exact s1 v (by simpa using h1)
    · exact i1 v h1

/-- A trace of messages of non-terminal types fires nothing and leaves the
pending set unchanged. -/
lemma processTrace_no_terminal_types (msgs : List WireMsg)
    (h : ∀ m ∈ msgs, isTerminalType m.type = false) (st : ClientState) :
    (processTrace st msgs).2 = [] ∧ (processTrace st msgs).1.pending = st.pending := by
  induction msgs generalizing st with
  | nil => simp [processTrace]
  | cons m rest ih =>
    obtain ⟨s1, s2⟩ := clientHandle_nonterminal st m (h m (List.mem_cons_self m rest))
    obtain ⟨i1, i2⟩ := ih (fun m2 hm2 => h m2 (List.mem_cons_of_mem m hm2))
      (clientHandle st m).state
    constructor
    · rw [show (processTrace st (m :: rest)).2
          = (clientHandle st m).fired.toList
              ++ (processTrace (clientHandle st m).state rest).2 from rfl]
      rw [s1, i1]
      rfl
    · rw [show (processTrace st (m :: rest)).1
          = (processTrace (clientHandle st m).state rest).1 from rfl]
      rw [i2, s2]

/-! ### Helper lemmas: paths -/

lemma pathResolve_abs (base p : String) (h : strStarts p "/" = true) :
    pathResolve base p = joinSegs (normSegs (splitPath p)) := by
  simp [pathResolve, h]

lemma replaceFirstChar_not_mem (l : List Char) (pat : Char) (rep : List Char)
    (h : pat ∉ l) : replaceFirstChar l pat rep = l := by
  induction l with
  | nil => rfl
  | cons c rest ih =>
    have hc : ¬ (c == pat) = true := by
      simp only [beq_iff_eq]
      intro e; exact h (e ▸ List.mem_cons_self c rest)
    have ih2 := ih (fun hm => h (List.mem_cons_of_mem c hm))
    simp [replaceFirstChar, hc, ih2]

lemma jsReplaceTilde_no_tilde (s home : String) (h : '~' ∉ s.data) :
    jsReplaceTilde s home = s := by
  cases s with
  | mk l => simp [jsReplaceTilde, replaceFirstChar_not_mem l '~' home.data h]

/-! ## Claim theorems -/

/-- C2: while a shared token is configured and the connection is not yet
authorized, any inbound message other than `auth` is ignored: no reply, no
effect, and the server state (including `workingDirectory` and the file
system) is unchanged. -/
theorem preauth_no_service (cfg : SrvConfig) (telem : Telemetry) (st : SrvState)
    (msg : WireMsg) (t : String) (_htok : cfg.token = some t)
    (hauth : st.authorized = false) (hne : msg.type ≠ "auth") :
    handleMessage cfg telem st msg = ⟨st, [], []⟩ := by
  simp [handleMessage, hne, hauth]

theorem preauth_no_service_witness :
    handleMessage cfgTok telem0 ⟨false, "/root", []⟩
      { type := "command", content := some "ls", requestId := some "r1" }
      = ⟨⟨false, "/root", []⟩, [], []⟩ :=
  preauth_no_service cfgTok telem0 ⟨false, "/root", []⟩
    { type := "command", content := some "ls", requestId := some "r1" } "secret" rfl rfl
    (by decide)

/-- C3: the authentication handshake. With no token configured a fresh
connection is implicitly authorized and immediately receives
`auth_success`, `config`, `cwd`. With a token configured, a matching
`auth` yields `auth_success` then `config` and `cwd` and authorizes the
connection; a mismatch yields `auth_fail` and the socket is closed with
the connection still unauthorized, so no retry is possible on it. -/
theorem auth_handshake_protocol (cfg : SrvConfig) (telem : Telemetry)
    (currentDir : String) (fs : FS) (st : SrvState) (msg : WireMsg) (t : String) :
    (cfg.token = none →
      (connInit cfg currentDir fs telem).1.authorized = true
      ∧ (connInit cfg currentDir fs telem).2.map WireMsg.type
          = ["auth_success", "config", "cwd"])
    ∧ (cfg.token = some t → msg.type = "auth" → msg.token = some t →
      (handleMessage cfg telem st msg).state.authorized = true
      ∧ (handleMessage cfg telem st msg).sent.map WireMsg.type
          = ["auth_success", "config", "cwd"]
      ∧ (handleMessage cfg telem st msg).effects = [])
    ∧ (cfg.token = some t → msg.type = "auth" → msg.token ≠ some t →
      (handleMessage cfg telem st msg).sent.map WireMsg.type = ["auth_fail"]
      ∧ (handleMessage cfg telem st msg).effects = [Effect.closeSocket]
      ∧ (handleMessage cfg telem st msg).state = st) := by
  refine ⟨fun h1 => ?_, fun h1 h2 h3 => ?_, fun h1 h2 h3 => ?_⟩
  · simp [connInit, h1, statusMsg, configMsg, cwdMsg]
  · simp [handleMessage, h1, h2, h3, authOk, statusMsg, configMsg, cwdMsg]
  · simp [handleMessage, h1, h2, authOk, statusMsg, h3]

theorem auth_handshake_protocol_witness :
    ((connInit cfg0 "/root" [] telem0).2.map WireMsg.type
        = ["auth_success", "config", "cwd"])
    ∧ ((handleMessage cfgTok telem0 ⟨false, "/root", []⟩
          { type := "auth", token := some "secret" }).sent.map WireMsg.type
        = ["auth_success", "config", "cwd"])
    ∧ ((handleMessage cfgTok telem0 ⟨false, "/root", []⟩
          { type := "auth", token := some "wrong" }).sent.map WireMsg.type
        = ["auth_fail"])
    ∧ (handleMessage cfgTok telem0 ⟨false, "/root", []⟩
          { type := "auth", token := some "wrong" }).effects = [Effect.closeSocket] := by
  have h1 := (auth_handshake_protocol cfg0 telem0 "/root" [] ⟨false, "/root", []⟩
    { type := "auth", token := some "secret" } "t").1 rfl
  have h2 := (auth_handshake_protocol cfgTok telem0 "/root" [] ⟨false, "/root", []⟩
    { type := "auth", token := some "secret" } "secret").2.1 rfl rfl rfl
  have h3 := (auth_handshake_protocol cfgTok telem0 "/root" [] ⟨false, "/root", []⟩
    { type := "auth", token := some "wrong" } "secret").2.2 rfl rfl (by decide)
  exact ⟨h1.2, h2.2.1, h3.1, h3.2.1⟩

/-- C5: an authorized `cd /nonexistent` command with request id `r1`, when
the target does not exist, replies with exactly one `error` frame carrying
`r1` and the content `Directory not found: /nonexistent`, and leaves the
whole server state (in particular `workingDirectory`) unchanged. -/
theorem cd_nonexistent_unchanged (cfg : SrvConfig) (telem : Telemetry) (st : SrvState)
    (hauth : st.authorized = true) (hfs : fsLookup st.fs "/nonexistent" = none) :
    handleMessage cfg telem st
        { type := "command", content := some "cd /nonexistent", requestId := some "r1" }
      = ⟨st, [errMsg "Directory not found: /nonexistent" (some "r1")], []⟩ := by
  have h1 : strTrim "cd /nonexistent" = "cd /nonexistent" := by decide
  have h2 : strStarts "cd /nonexistent" "cd " = true := by decide
  have h3 : strTrim (dropChars "cd /nonexistent" 3) = "/nonexistent" := by decide
  have h4 : jsReplaceTilde "/nonexistent" cfg.homedir = "/nonexistent" :=
    jsReplaceTilde_no_tilde _ _ (by decide)
  have h5 : pathResolve st.currentDir "/nonexistent" = "/nonexistent" := by
    rw [pathResolve_abs _ _ (by decide)]; decide
  simp [handleMessage, hauth, handleCd, h1, h2, h3, h4, h5, hfs]

theorem cd_nonexistent_unchanged_witness :
    handleMessage cfg0 telem0 ⟨true, "/home", []⟩
        { type := "command", content := some "cd /nonexistent", requestId := some "r1" }
      = ⟨⟨true, "/home", []⟩, [errMsg "Directory not found: /nonexistent" (some "r1")], []⟩ :=
  cd_nonexistent_unchanged cfg0 telem0 ⟨true, "/home", []⟩ rfl rfl

/-- The target the cd handler resolves for a raw `command` content. -/
def cdTarget (cfg : SrvConfig) (st : SrvState) (raw : String) : String :=
  pathResolve st.currentDir (jsReplaceTilde (strTrim (dropChars (strTrim raw) 3)) cfg.homedir)

/-- C6 counterexample: `cd` to an existing regular file. The claim says the
handler verifies the target is a directory and on failure leaves
`workingDirectory` unchanged with an error reply; the code checks only
`existsSync`, so `workingDirectory` becomes the file path `/a` (no longer
the initial `/`) and no frame at all is emitted. -/
theorem cd_file_target_counterexample :
    (handleMessage cfg0 telem0 ⟨true, "/", [("/a", FsEntry.file "x")]⟩
        { type := "command", content := some "cd /a", requestId := some "r1" }).state.currentDir
      = "/a"
    ∧ (handleMessage cfg0 telem0 ⟨true, "/", [("/a", FsEntry.file "x")]⟩
        { type := "command", content := some "cd /a", requestId := some "r1" }).sent = []
    ∧ ("/a" : String) ≠ "/" := by decide

/-- C6 (amended): the cd handler verifies only that the resolved target
exists. If it is a directory, `workingDirectory` is updated and a `cwd`
frame is emitted; if it exists but is a regular file, `workingDirectory`
is still updated to that non-directory path and nothing is emitted (the
subsequent `process.chdir` raises and the exception is swallowed); only
when the target does not exist is an error emitted with
`workingDirectory` unchanged. -/
theorem cd_exists_check_only (cfg : SrvConfig) (telem : Telemetry) (st : SrvState)
    (msg : WireMsg) (raw : String)
    (hauth : st.authorized = true) (htype : msg.type = "command")
    (hc : msg.content = some raw) (hcd : strStarts (strTrim raw) "cd " = true) :
    (fsLookup st.fs (cdTarget cfg st raw) = some FsEntry.dir →
      handleMessage cfg telem st msg
        = ⟨{ st with currentDir := cdTarget cfg st raw },
           [cwdMsg (cdTarget cfg st raw) msg.requestId], []⟩)
    ∧ (∀ c, fsLookup st.fs (cdTarget cfg st raw) = some (FsEntry.file c) →
      handleMessage cfg telem st msg
        = ⟨{ st with currentDir := cdTarget cfg st raw }, [], []⟩)
    ∧ (fsLookup st.fs (cdTarget cfg st raw) = none →
      handleMessage cfg telem st msg
        = ⟨st, [errMsg ("Directory not found: " ++ cdTarget cfg st raw) msg.requestId], []⟩) := by
  have hmsg : handleMessage cfg telem st msg
      = handleCd st cfg.homedir (strTrim raw) msg.requestId := by
    simp [handleMessage, htype, hc, hauth, hcd]
  have htgt : pathResolve st.currentDir
      (jsReplaceTilde (strTrim (dropChars (strTrim raw) 3)) cfg.homedir)
      = cdTarget cfg st raw := rfl
  refine ⟨fun hdir => ?_, fun c2 hfile => ?_, fun hnone => ?_⟩ <;>
    rw [hmsg] <;> simp only [handleCd, htgt] <;>
    first
      | rw [hdir]
      | rw [hfile]
      | rw [hnone]

theorem cd_exists_check_only_witness :
    handleMessage cfg0 telem0 ⟨true, "/", [("/tmp", FsEntry.dir)]⟩
        { type := "command", content := some "cd /tmp", requestId := some "r1" }
      = ⟨⟨true, "/tmp", [("/tmp", FsEntry.dir)]⟩, [cwdMsg "/tmp" (some "r1")], []⟩ := by
  have h := (cd_exists_check_only cfg0 telem0 ⟨true, "/", [("/tmp", FsEntry.dir)]⟩
    { type := "command", content := some "cd /tmp", requestId := some "r1" } "cd /tmp"
    rfl rfl rfl (by decide)).1 (by decide)
  exact h

lemma strEmpty_append (a : String) : "" ++ a = a :=
  String.ext (by simp [String.data_append])

lemma filter_fst_eq_nil (r : String) (l : List (String × Option String))
    (h : ∀ v, (r, v) ∉ l) : l.filter (fun e => e.1 == r) = [] := by
  induction l with
  | nil => rfl
  | cons e rest ih =>
    have h1 : ¬ (e.1 == r) = true := by
      simp only [beq_iff_eq]
      intro he
      apply h e.2
      have h2 : (r, e.2) = e := by rw [← he]
      rw [h2]
      exact List.mem_cons_self e rest
    have ih2 := ih (fun v hv => h v (List.mem_cons_of_mem e hv))
    simp [List.filter_cons, h1, ih2]

/-- C1 counterexample: a terminal `system` frame arriving with an empty
chunk buffer fires the resolver with the own content of the frame, not with the
(empty) ordered concatenation of the chunks received before it, which the
claim prescribes unconditionally for non-`file_content` terminals. -/
theorem resolver_concat_counterexample :
    (clientHandle ⟨true, ["r"], []⟩
        (systemMsg "Write operation successful." (some "r"))).fired
      = some ("r", some "Write operation successful.")
    ∧ chunkConcat "r" ([] : List WireMsg) = ""
    ∧ ("Write operation successful." : String) ≠ "" := by decide

/-- C1 (amended): for a request id pending with an empty buffer, the
resolver fires exactly once across any trace `pre ++ terminal ++ post`
whose `pre` holds no terminal for that id: with the own content of the
terminal frame when its type is `file_content`; otherwise with the ordered
concatenation of the chunks of `pre` when that is nonempty, else with the
content of the terminal when nonempty, else with `Action Complete.`.
Immediately after the terminal the pending entry and buffer are
discarded. -/
theorem resolver_fires_once_with_value (r : String) (hr : r ≠ "")
    (st0 : ClientState) (hp : r ∈ st0.pending) (hb : alistLookup st0.buffers r = none)
    (pre : List WireMsg) (hpre : ∀ m ∈ pre, isTermFor r m = false)
    (term : WireMsg) (hrid : term.requestId = some r)
    (hterm : isTerminalType term.type = true) (post : List WireMsg) :
    (processTrace st0 (pre ++ term :: post)).2.filter (fun e => e.1 == r)
      = [(r, if term.type = "file_content" then term.content
             else some (jsOrStr (chunkConcat r pre) (jsOrOpt term.content "Action Complete.")))]
    ∧ r ∉ (processTrace st0 (pre ++ [term])).1.pending
    ∧ alistLookup (processTrace st0 (pre ++ [term])).1.buffers r = none := by
  obtain ⟨n1, n2, n3⟩ := processTrace_no_term r hr pre hpre st0
  have hbuf1 : bufVal (processTrace st0 pre).1 r = chunkConcat r pre := by
    rw [n1]
    simp only [bufVal, hb, Option.getD_none]
    exact strEmpty_append _
  have hp1 : r ∈ (processTrace st0 pre).1.pending := n2.mpr hp
  obtain ⟨t1, t2, t3⟩ :=
    clientHandle_terminal (processTrace st0 pre).1 term r hrid hr hterm hp1
  obtain ⟨p1, p2⟩ := processTrace_not_pending r post
    (clientHandle (processTrace st0 pre).1 term).state t2
  refine ⟨?_, ?_, ?_⟩
  · rw [processTrace_append st0 pre (term :: post)]
    rw [show (processTrace (processTrace st0 pre).1 (term :: post)).2
        = (clientHandle (processTrace st0 pre).1 term).fired.toList
            ++ (processTrace (clientHandle (processTrace st0 pre).1 term).state post).2
        from rfl]
    rw [List.filter_append, List.filter_append]
    rw [filter_fst_eq_nil r _ (fun v => n3 v), filter_fst_eq_nil r _ (fun v => p1 v)]
    rw [t1, ← hbuf1]
    simp
  · rw [processTrace_append st0 pre [term]]
    rw [show (processTrace (processTrace st0 pre).1 [term]).1
        = (clientHandle (processTrace st0 pre).1 term).state from rfl]
    exact t2
  · rw [processTrace_append st0 pre [term]]
    rw [show (processTrace (processTrace st0 pre).1 [term]).1
        = (clientHandle (processTrace st0 pre).1 term).state from rfl]
    exact t3

theorem resolver_fires_once_with_value_witness :
    (processTrace ⟨true, ["r1"], []⟩
        ([outputMsg "a" (some "r1"), errMsg "b" (some "r1")]
          ++ exitMsg 0 (some "r1") :: [outputMsg "z" (some "r1")])).2.filter
        (fun e => e.1 == "r1")
      = [("r1", some "ab")]
    ∧ "r1" ∉ (processTrace ⟨true, ["r1"], []⟩
        ([outputMsg "a" (some "r1"), errMsg "b" (some "r1")]
          ++ [exitMsg 0 (some "r1")])).1.pending
    ∧ alistLookup (processTrace ⟨true, ["r1"], []⟩
        ([outputMsg "a" (some "r1"), errMsg "b" (some "r1")]
          ++ [exitMsg 0 (some "r1")])).1.buffers "r1" = none := by
  have h := resolver_fires_once_with_value "r1" (by decide) ⟨true, ["r1"], []⟩
    (by decide) rfl
    [outputMsg "a" (some "r1"), errMsg "b" (some "r1")] (by decide)
    (exitMsg 0 (some "r1")) rfl (by decide)
    [outputMsg "z" (some "r1")]
  exact h

/-- C9: a trace of messages all tagged with request id `r1` never touches
the buffer of a distinct id `r2`, never changes whether `r2` is pending,
and never fires the resolver of `r2`, whatever the interleaving of the
streamed chunks is. -/
theorem request_isolation (r1 r2 : String) (hne : r1 ≠ r2)
    (msgs : List WireMsg) (h : ∀ m ∈ msgs, m.requestId = some r1) (st : ClientState) :
    bufVal (processTrace st msgs).1 r2 = bufVal st r2
    ∧ ((r2 ∈ (processTrace st msgs).1.pending) ↔ r2 ∈ st.pending)
    ∧ (∀ v, (r2, v) ∉ (processTrace st msgs).2) := by
  induction msgs generalizing st with
  | nil => simp [processTrace]
  | cons m rest ih =>
    have hm : m.requestId ≠ some r2 := by
      rw [h m (List.mem_cons_self m rest)]
      simp [hne]
    obtain ⟨b1, b2, b3⟩ := clientHandle_frame st m r2 hm
    obtain ⟨i1, i2, i3⟩ :=
      ih (fun m2 hm2 => h m2 (List.mem_cons_of_mem m hm2)) (clientHandle st m).state
    refine ⟨?_, ?_, ?_⟩
    · rw [show bufVal (processTrace st (m :: rest)).1 r2
          = bufVal (processTrace (clientHandle st m).state rest).1 r2 from rfl]
      rw [i1, b1]
    · rw [show (processTrace st (m :: rest)).1
          = (processTrace (clientHandle st m).state rest).1 from rfl]
      rw [i2, b2]
    · intro v hv
      rw [show (processTrace st (m :: rest)).2
          = (clientHandle st m).fired.toList
              ++ (processTrace (clientHandle st m).state rest).2 from rfl] at hv
      rcases List.mem_append.mp hv with h1 | h1
      · exact b3 v (by simpa using h1)
      · exact i3 v h1

theorem request_isolation_witness :
    bufVal (processTrace ⟨true, ["r1", "r2"], [("r2", "keep")]⟩
        [outputMsg "x" (some "r1"), exitMsg 0 (some "r1")]).1 "r2" = "keep"
    ∧ ("r2" ∈ (processTrace ⟨true, ["r1", "r2"], [("r2", "keep")]⟩
        [outputMsg "x" (some "r1"), exitMsg 0 (some "r1")]).1.pending) := by
  have h := request_isolation "r1" "r2" (by decide)
    [outputMsg "x" (some "r1"), exitMsg 0 (some "r1")] (by decide)
    ⟨true, ["r1", "r2"], [("r2", "keep")]⟩
  exact ⟨h.1, h.2.1.mpr (by decide)⟩

/-- C10: a builtin cd command only ever produces frames of type `cwd` or
`error`, never of a terminal type; consequently a cd issued through
`executeTerminalCommand` stores a resolver that no resulting frame can
fire: the request id stays pending forever and the promise of the caller never
settles. -/
theorem cd_never_resolves (cfg : SrvConfig) (telem : Telemetry) (sst : SrvState)
    (cst : ClientState) (cmd id : String)
    (hsauth : sst.authorized = true) (hcauth : cst.authorizedFlag = true)
    (hcd : strStarts (strTrim cmd) "cd " = true) :
    (executeTerminalCommand cst cmd id).2
      = some { type := "command", content := some cmd, requestId := some id }
    ∧ id ∈ (executeTerminalCommand cst cmd id).1.pending
    ∧ (∀ m ∈ (handleMessage cfg telem sst
          { type := "command", content := some cmd, requestId := some id }).sent,
        (m.type = "cwd" ∨ m.type = "error") ∧ isTerminalType m.type = false)
    ∧ (∀ msgs : List WireMsg, (∀ m ∈ msgs, isTerminalType m.type = false) →
        (processTrace (executeTerminalCommand cst cmd id).1 msgs).2 = []
        ∧ id ∈ (processTrace (executeTerminalCommand cst cmd id).1 msgs).1.pending) := by
  have hexec : (executeTerminalCommand cst cmd id).1
      = { cst with pending := pendingAdd cst.pending id } := by
    simp [executeTerminalCommand, hcauth]
  have hpend : id ∈ (executeTerminalCommand cst cmd id).1.pending := by
    rw [hexec]
    exact mem_pendingAdd_self cst.pending id
  refine ⟨by simp [executeTerminalCommand, hcauth], hpend, ?_, ?_⟩
  · have hmsg : handleMessage cfg telem sst
        { type := "command", content := some cmd, requestId := some id }
        = handleCd sst cfg.homedir (strTrim cmd) (some id) := by
      simp [handleMessage, hsauth, hcd]
    rw [hmsg]
    intro m hm
    simp only [handleCd] at hm
    rcases hfs : fsLookup sst.fs (pathResolve sst.currentDir
        (jsReplaceTilde (strTrim (dropChars (strTrim cmd) 3)) cfg.homedir)) with _ | e
    · rw [hfs] at hm
      simp at hm
      rw [hm]
      simp [errMsg, isTerminalType]
    · cases e with
      | file c =>
        rw [hfs] at hm
        simp at hm
      | dir =>
        rw [hfs] at hm
        simp at hm
        rw [hm]
        simp [cwdMsg, isTerminalType]
  · intro msgs hmsgs
    obtain ⟨e1, e2⟩ := processTrace_no_terminal_types msgs hmsgs
      (executeTerminalCommand cst cmd id).1
    exact ⟨e1, by rw [e2]; exact hpend⟩

theorem cd_never_resolves_witness :
    (processTrace (executeTerminalCommand ⟨true, [], []⟩ "cd /tmp" "r9").1
        [cwdMsg "/tmp" (some "r9")]).2 = []
    ∧ "r9" ∈ (processTrace (executeTerminalCommand ⟨true, [], []⟩ "cd /tmp" "r9").1
        [cwdMsg "/tmp" (some "r9")]).1.pending := by
  have h := (cd_never_resolves cfg0 telem0 ⟨true, "/", [("/tmp", FsEntry.dir)]⟩
    ⟨true, [], []⟩ "cd /tmp" "r9" rfl rfl (by decide)).2.2.2
    [cwdMsg "/tmp" (some "r9")] (by decide)
  exact h

lemma procMsgs_exit_count (rid : Option String) (evs : List ProcEvent) :
    ((evs.map (procEventMsg rid)).filter (fun m => m.type == "exit")).length
      = (evs.filter isClosedEvent).length := by
  induction evs with
  | nil => rfl
  | cons e rest ih =>
    cases e <;>
      simp [procEventMsg, outputMsg, errMsg, exitMsg, isClosedEvent, List.filter_cons, ih]

/-- C4: an authorized `command` that is not a builtin cd spawns the
platform shell on the trimmed input in the current working directory,
replying nothing synchronously; the installed stream handlers forward
every stdout chunk as an `output` frame and every stderr chunk as an
`error` frame tagged with the originating request id, and process
termination yields exactly one `exit` frame carrying the exit code and
the same id — a frame of terminal type for the correlator. -/
theorem command_spawn_forwarding (cfg : SrvConfig) (telem : Telemetry) (st : SrvState)
    (msg : WireMsg) (c : String)
    (hauth : st.authorized = true) (htype : msg.type = "command")
    (hc : msg.content = some c) (hcd : strStarts (strTrim c) "cd " = false) :
    handleMessage cfg telem st msg
      = ⟨st, [], [Effect.spawn (shellName cfg) (shellArgs cfg (strTrim c))
          st.currentDir msg.requestId]⟩
    ∧ (∀ s, procEventMsg msg.requestId (ProcEvent.stdoutChunk s) = outputMsg s msg.requestId)
    ∧ (∀ s, procEventMsg msg.requestId (ProcEvent.stderrChunk s) = errMsg s msg.requestId)
    ∧ (∀ k, procEventMsg msg.requestId (ProcEvent.closed k) = exitMsg k msg.requestId
            ∧ isTerminalType (exitMsg k msg.requestId).type = true)
    ∧ (∀ evs : List ProcEvent,
        ((evs.map (procEventMsg msg.requestId)).filter (fun m => m.type == "exit")).length
          = (evs.filter isClosedEvent).length) := by
  refine ⟨?_, fun s => rfl, fun s => rfl,
    fun k => ⟨rfl, by simp [exitMsg, isTerminalType]⟩,
    fun evs => procMsgs_exit_count _ evs⟩
  simp [handleMessage, htype, hc, hauth, hcd]

theorem command_spawn_forwarding_witness :
    handleMessage cfg0 telem0 ⟨true, "/home", []⟩
        { type := "command", content := some "ls -la", requestId := some "r3" }
      = ⟨⟨true, "/home", []⟩, [],
         [Effect.spawn "bash" ["-c", "ls -la"] "/home" (some "r3")]⟩
    ∧ (([ProcEvent.stdoutChunk "total 0", ProcEvent.closed 0].map
          (procEventMsg (some "r3"))).filter (fun m => m.type == "exit")).length = 1 := by
  have h := command_spawn_forwarding cfg0 telem0 ⟨true, "/home", []⟩
    { type := "command", content := some "ls -la", requestId := some "r3" } "ls -la"
    rfl rfl rfl (by decide)
  refine ⟨h.1, ?_⟩
  have h5 := h.2.2.2.2 [ProcEvent.stdoutChunk "total 0", ProcEvent.closed 0]
  rw [h5]
  decide

lemma fsLookup_insert (fs : FS) (p : String) (e : FsEntry) :
    fsLookup (fsInsert fs p e) p = some e := by
  simp [fsInsert, fsLookup]

def writeMsgOf (f c : String) (rid : Option String) : WireMsg :=
  { type := "write", filename := some f, content := some c, requestId := rid }

def readMsgOf (p : String) (rid : Option String) : WireMsg :=
  { type := "read", path := some p, requestId := rid }

/-- C7: an authorized `write` always answers with exactly one frame, of
type `system` (success, after creating missing parent directories) or
`error` (failure), tagged with the request id; and whenever the success
frame was emitted, a subsequent `read` whose path resolves to the same
target (with no intervening writes) answers with a single terminal
`file_content` frame carrying byte-identical content. -/
theorem write_then_read_roundtrip (cfg : SrvConfig) (telem : Telemetry) (st : SrvState)
    (f c p : String) (rid rid2 : Option String)
    (hauth : st.authorized = true)
    (hsame : pathResolve st.currentDir p = pathResolve st.currentDir f) :
    (∃ m, (handleMessage cfg telem st (writeMsgOf f c rid)).sent = [m]
          ∧ (m.type = "system" ∨ m.type = "error") ∧ m.requestId = rid)
    ∧ ((handleMessage cfg telem st (writeMsgOf f c rid)).sent
          = [systemMsg "Write operation successful." rid] →
        (handleMessage cfg telem
            (handleMessage cfg telem st (writeMsgOf f c rid)).state
            (readMsgOf p rid2)).sent
          = [fileContentMsg c rid2]
        ∧ isTerminalType (fileContentMsg c rid2).type = true) := by
  rcases hmk : mkdirRec st.fs (pathDirname (pathResolve st.currentDir f)) with e | fs1
  · have hw : handleMessage cfg telem st (writeMsgOf f c rid)
        = { state := st, sent := [errMsg e rid], effects := [] } := by
      simp [handleMessage, writeMsgOf, hauth, hmk]
    refine ⟨⟨errMsg e rid, by rw [hw], Or.inr rfl, rfl⟩, fun hsys => ?_⟩
    rw [hw] at hsys
    simp [errMsg, systemMsg] at hsys
  · rcases hwf : writeFileFS fs1 (pathResolve st.currentDir f) c with e | fs2
    · have hw : handleMessage cfg telem st (writeMsgOf f c rid)
          = { state := st, sent := [errMsg e rid], effects := [] } := by
        simp [handleMessage, writeMsgOf, hauth, hmk, hwf]
      refine ⟨⟨errMsg e rid, by rw [hw], Or.inr rfl, rfl⟩, fun hsys => ?_⟩
      rw [hw] at hsys
      simp [errMsg, systemMsg] at hsys
    · have hw : handleMessage cfg telem st (writeMsgOf f c rid)
          = { state := { st with fs := fs2 },
              sent := [systemMsg "Write operation successful." rid], effects := [] } := by
        simp [handleMessage, writeMsgOf, hauth, hmk, hwf]
      have hfs2 : fs2 = fsInsert fs1 (pathResolve st.currentDir f) (FsEntry.file c) := by
        revert hwf
        unfold writeFileFS
        rcases fsLookup fs1 (pathResolve st.currentDir f) with _ | e2
        · intro hwf; injection hwf with h2; exact h2.symm
        · cases e2 with
          | file c2 => intro hwf; injection hwf with h2; exact h2.symm
          | dir => intro hwf; exact Except.noConfusion hwf
      refine ⟨⟨systemMsg "Write operation successful." rid, by rw [hw], Or.inl rfl, rfl⟩,
        fun _ => ⟨?_, rfl⟩⟩
      rw [hw]
      have hrd : readFileFS fs2 (pathResolve st.currentDir p) = Except.ok c := by
        rw [hsame, hfs2]
        unfold readFileFS
        rw [fsLookup_insert]
      simp [handleMessage, readMsgOf, hauth, hrd]

theorem write_then_read_roundtrip_witness :
    (handleMessage cfg0 telem0 ⟨true, "/home", []⟩ (writeMsgOf "a/b.txt" "hello" (some "w1"))).sent
      = [systemMsg "Write operation successful." (some "w1")]
    ∧ (handleMessage cfg0 telem0
        (handleMessage cfg0 telem0 ⟨true, "/home", []⟩
          (writeMsgOf "a/b.txt" "hello" (some "w1"))).state
        (readMsgOf "a/b.txt" (some "r2"))).sent
      = [fileContentMsg "hello" (some "r2")] := by
  have h := (write_then_read_roundtrip cfg0 telem0 ⟨true, "/home", []⟩
    "a/b.txt" "hello" "a/b.txt" (some "w1") (some "r2") rfl rfl).2 (by decide)
  exact ⟨by decide, h.1⟩

/-- C8: startup port discovery. Provided every candidate port either binds
or fails with address-in-use (the failure mode the startup loop advances
on), the relay binds the first free port of its ordered candidate list,
and when every candidate is in use the process exits fatally. -/
theorem relay_port_selection (outcome : Nat → PortOutcome) (ports : List Nat)
    (h : ∀ p ∈ ports, outcome p ≠ PortOutcome.otherError) :
    (∀ q, ports.find? (fun p => outcome p == PortOutcome.free) = some q →
      startRelay outcome ports = RelayResult.bound q)
    ∧ (ports.find? (fun p => outcome p == PortOutcome.free) = none →
      startRelay outcome ports = RelayResult.exitedFatal) := by
  induction ports with
  | nil => simp [startRelay]
  | cons p rest ih =>
    obtain ⟨ih1, ih2⟩ := ih (fun q hq => h q (List.mem_cons_of_mem p hq))
    have hp := h p (List.mem_cons_self p rest)
    constructor
    · intro q hq
      cases ho : outcome p with
      | free =>
        rw [List.find?_cons_of_pos _ (by simp [ho])] at hq
        injection hq with h2
        subst h2
        simp [startRelay, ho]
      | addrInUse =>
        rw [List.find?_cons_of_neg _ (by simp [ho])] at hq
        simpa [startRelay, ho] using ih1 q hq
      | otherError => exact absurd ho hp
    · intro hq
      cases ho : outcome p with
      | free =>
        rw [List.find?_cons_of_pos _ (by simp [ho])] at hq
        exact Option.noConfusion hq
      | addrInUse =>
        rw [List.find?_cons_of_neg _ (by simp [ho])] at hq
        simpa [startRelay, ho] using ih2 hq
      | otherError => exact absurd ho hp

def portScan : Nat → PortOutcome :=
  fun p => if p ≤ 8081 then PortOutcome.addrInUse else PortOutcome.free

def portScanFull : Nat → PortOutcome := fun _ => PortOutcome.addrInUse

theorem relay_port_selection_witness :
    startRelay portScan CONFIG_PORTS = RelayResult.bound 8082
    ∧ startRelay portScanFull CONFIG_PORTS = RelayResult.exitedFatal := by
  have h1 := (relay_port_selection portScan CONFIG_PORTS (by decide)).1 8082 (by decide)
  have h2 := (relay_port_selection portScanFull CONFIG_PORTS (by decide)).2 (by decide)
  exact ⟨h1, h2⟩

end Bridge
